import Mathlib

/-!
# Verification of the teleinfo2mqtt decoding core

A shallow embedding of `src/teleinfo/parser.rs` and `src/teleinfo/stream.rs`.

Strings are modelled as lists of byte values (`List Nat`, each < 256).  The
Teleinfo protocol is 7-bit ASCII, where UTF-8 bytes and Unicode code points
coincide, so Rust's `&str` operations (`lines`, `trim`, `split_whitespace`,
`as_bytes`) all act on the same byte sequence; the embedding works at that
byte level throughout.  Rust's distinct runtime error strings are mapped to
the constructors of an explicit error type, and a Rust `panic!` (a failed
`unwrap` or an out-of-bounds slice) is modelled by `Option.none`.
-/

set_option maxHeartbeats 1000000
set_option maxRecDepth 100000

namespace Teleinfo

/-- Byte values of an ASCII string: each character's code point.  Used only to
write concrete protocol data readably; all inputs of interest are 7-bit ASCII,
where this agrees with UTF-8 encoding. -/
def toBytes (s : String) : List Nat := s.data.map Char.toNat

/-- Rust `char::is_whitespace` restricted to the ASCII range: HT, LF, VT, FF,
CR and space. -/
def isWs (b : Nat) : Bool :=
  b == 32 || b == 9 || b == 10 || b == 11 || b == 12 || b == 13

/-- The separator bytes of a Teleinfo line: space (0x20) or horizontal tab
(0x09), exactly the bytes `validate_checksum` searches for. -/
def isSep (b : Nat) : Bool := b == 32 || b == 9

/-- Rust `str::trim` at the byte level: strip leading and trailing whitespace. -/
def trimB (l : List Nat) : List Nat :=
  ((l.dropWhile isWs).reverse.dropWhile isWs).reverse

/-- Split a byte list at every LF (0x0A).  `splitNl l` always has one more
element than the number of LF bytes in `l`. -/
def splitNl : List Nat → List (List Nat)
  | [] => [[]]
  | b :: rest =>
    if b == 10 then [] :: splitNl rest
    else
      match splitNl rest with
      | [] => [[b]]
      | x :: xs => (b :: x) :: xs

/-- Strip one trailing CR (0x0D): the CR of a CRLF line ending. -/
def stripCr (l : List Nat) : List Nat :=
  match l.getLast? with
  | some 13 => l.dropLast
  | _ => l

/-- Helper for `linesB` over the pieces produced by `splitNl`: every piece
except the last ended at an LF, so its trailing CR (if any) is removed; the
final piece ended at an LF exactly when it is empty (a trailing LF produces
it), in which case it is dropped, and otherwise it is kept verbatim. -/
def linesGo : List (List Nat) → List (List Nat)
  | [] => []
  | [last] => if last.isEmpty then [] else [last]
  | piece :: rest => stripCr piece :: linesGo rest

/-- Rust `str::lines`: split at each LF, treating a CR immediately before an
LF as part of the line terminator; the final line ending is optional. -/
def linesB (l : List Nat) : List (List Nat) := linesGo (splitNl l)

/-- Helper for `splitWs`: accumulates the current (reversed) token. -/
def splitWsAux : List Nat → List Nat → List (List Nat)
  | [], acc => if acc.isEmpty then [] else [acc.reverse]
  | b :: rest, acc =>
    if isWs b then
      if acc.isEmpty then splitWsAux rest []
      else acc.reverse :: splitWsAux rest []
    else splitWsAux rest (b :: acc)

/-- Rust `str::split_whitespace`: the maximal non-whitespace runs, in order. -/
def splitWs (l : List Nat) : List (List Nat) := splitWsAux l []

/-- Helper for `rposSep`: walks the list keeping the index of the most recent
separator seen. -/
def rposAux : List Nat → Nat → Option Nat → Option Nat
  | [], _, best => best
  | b :: rest, i, best => rposAux rest (i + 1) (if isSep b then some i else best)

/-- Rust `bytes.iter().rposition(|&b| b == b' ' || b == b'\t')`: the index of
the last separator byte, if any. -/
def rposSep (l : List Nat) : Option Nat := rposAux l 0 none

/-- `validate_checksum` from `src/teleinfo/parser.rs`.  Finds the last
separator; the byte after it is the checksum byte; the checksum is computed
over every byte strictly before the last separator as `(sum & 0x3F) + 0x20`,
truncated `as u8`.  (The `u32` sum may wrap in Rust for lines over 16 MiB, but
wrapping mod 2^32 leaves the low six bits — all `& 0x3F` keeps — unchanged, so
the plain `Nat` sum is observationally identical.) -/
def validate_checksum (l : List Nat) : Bool :=
  if l.isEmpty then false
  else
    match rposSep l with
    | none => false
    | some p =>
      if l.length ≤ p + 1 then false
      else
        let sum := (l.take p).foldl (fun a b => a + b) 0
        let expected := ((sum &&& 63) + 32) % 256
        l.getD (p + 1) 0 == expected

/-- `TeleinfoFrame` from `src/teleinfo/parser.rs`: the ten decoded fields,
each the original byte string. -/
structure TeleinfoFrame where
  adco : List Nat
  optarif : List Nat
  isousc : List Nat
  base : List Nat
  ptec : List Nat
  iinst : List Nat
  imax : List Nat
  papp : List Nat
  hhphc : List Nat
  motdetat : List Nat
deriving DecidableEq, Repr

/-- The distinct error strings `parse_teleinfo` can produce, as constructors:
`format!("Invalid checksum for line: {}", trimmed)`, `"Missing key"`,
`"Missing value"` and `format!("Missing {label}")`. -/
inductive ParseErr where
  | checksum (line : List Nat)
  | missingKey
  | missingValue
  | missingField (label : List Nat)
deriving DecidableEq, Repr

/-- `HashMap::insert` on an association list: overwrite the entry with the
given key in place, or append a fresh entry. -/
def insertA (m : List (List Nat × List Nat)) (k v : List Nat) :
    List (List Nat × List Nat) :=
  match m with
  | [] => [(k, v)]
  | (k', v') :: rest =>
    if k' = k then (k, v) :: rest else (k', v') :: insertA rest k v

/-- `HashMap::get` on an association list built by `insertA`. -/
def lookupA (m : List (List Nat × List Nat)) (k : List Nat) :
    Option (List Nat) :=
  match m with
  | [] => none
  | (k', v') :: rest => if k' = k then some v' else lookupA rest k

/-- The `teleinfo_map` of `parse_teleinfo`: every parsed (key, value) pair
inserted in line order into an initially empty map. -/
def buildMap (ps : List (List Nat × List Nat)) : List (List Nat × List Nat) :=
  ps.foldl (fun m p => insertA m p.1 p.2) []

/-- The line-scanning loop of `parse_teleinfo`: trims each line, skips blank
lines and lines starting with STX/ETX, rejects the frame at the first line
failing `validate_checksum`, and otherwise records the first two
whitespace-delimited tokens of each line, in line order. -/
def collectPairs : List (List Nat) → Except ParseErr (List (List Nat × List Nat))
  | [] => .ok []
  | line :: rest =>
    match trimB line with
    | [] => collectPairs rest
    | b :: bs =>
      if b == 2 || b == 3 then collectPairs rest
      else if validate_checksum (b :: bs) then
        match splitWs (b :: bs) with
        | [] => .error .missingKey
        | [_] => .error .missingValue
        | k :: v :: _ => (collectPairs rest).map (fun ps => (k, v) :: ps)
      else .error (.checksum (b :: bs))

def lADCO : List Nat := toBytes ("ADCO")
def lOPTARIF : List Nat := toBytes ("OPTARIF")
def lISOUSC : List Nat := toBytes ("ISOUSC")
def lBASE : List Nat := toBytes ("BASE")
def lPTEC : List Nat := toBytes ("PTEC")
def lIINST : List Nat := toBytes ("IINST")
def lIMAX : List Nat := toBytes ("IMAX")
def lPAPP : List Nat := toBytes ("PAPP")
def lHHPHC : List Nat := toBytes ("HHPHC")
def lMOTDETAT : List Nat := toBytes ("MOTDETAT")

/-- The ten labels `parse_teleinfo` requires, in the order it looks them up. -/
def requiredLabels : List (List Nat) :=
  [lADCO, lOPTARIF, lISOUSC, lBASE, lPTEC, lIINST, lIMAX, lPAPP, lHHPHC, lMOTDETAT]

/-- Rust `Option::ok_or`: a present value, or the given error. -/
def okOr (o : Option (List Nat)) (e : ParseErr) : Except ParseErr (List Nat) :=
  match o with
  | some v => .ok v
  | none => .error e

/-- `parse_teleinfo` from `src/teleinfo/parser.rs`: scan the lines
(`collectPairs`), build the label-to-value map, then require each of the ten
labels in order, failing with `Missing <label>` at the first absent one. -/
def parse_teleinfo (teleinfo : List Nat) : Except ParseErr TeleinfoFrame := do
  let ps ← collectPairs (linesB teleinfo)
  let m := buildMap ps
  let adco ← okOr (lookupA m lADCO) (.missingField lADCO)
  let optarif ← okOr (lookupA m lOPTARIF) (.missingField lOPTARIF)
  let isousc ← okOr (lookupA m lISOUSC) (.missingField lISOUSC)
  let base ← okOr (lookupA m lBASE) (.missingField lBASE)
  let ptec ← okOr (lookupA m lPTEC) (.missingField lPTEC)
  let iinst ← okOr (lookupA m lIINST) (.missingField lIINST)
  let imax ← okOr (lookupA m lIMAX) (.missingField lIMAX)
  let papp ← okOr (lookupA m lPAPP) (.missingField lPAPP)
  let hhphc ← okOr (lookupA m lHHPHC) (.missingField lHHPHC)
  let motdetat ← okOr (lookupA m lMOTDETAT) (.missingField lMOTDETAT)
  return ⟨adco, optarif, isousc, base, ptec, iinst, imax, papp, hhphc, motdetat⟩

/-- Decidable equality of parse results, so concrete parses can be settled by
`decide`. -/
instance : DecidableEq (Except ParseErr TeleinfoFrame) := fun x y =>
  match x, y with
  | .error a, .error b =>
    if h : a = b then .isTrue (by rw [h]) else .isFalse (fun he => h (by injection he))
  | .error _, .ok _ => .isFalse (fun he => by injection he)
  | .ok _, .error _ => .isFalse (fun he => by injection he)
  | .ok a, .ok b =>
    if h : a = b then .isTrue (by rw [h]) else .isFalse (fun he => h (by injection he))

/-- Digit accumulator for `parseIntIn`. -/
def digitsValAux : List Nat → Nat → Option Nat
  | [], acc => some acc
  | b :: rest, acc =>
    if 48 ≤ b ∧ b ≤ 57 then digitsValAux rest (acc * 10 + (b - 48)) else none

/-- The value of a non-empty all-digit byte string, else `none`. -/
def digitsVal (l : List Nat) : Option Nat :=
  if l.isEmpty then none else digitsValAux l 0

/-- Rust `str::parse` for a bounded signed integer type: an optional `+`/`-`
sign, then at least one ASCII digit, and the resulting value must lie within
`[lo, hi]` (out-of-range input is a parse error, as Rust's checked
accumulation makes it). -/
def parseIntIn (lo hi : Int) (l : List Nat) : Option Int :=
  let signed : List Nat → Bool → Option Int := fun ds neg =>
    match digitsVal ds with
    | none => none
    | some n =>
      let v : Int := if neg then -(n : Int) else (n : Int)
      if lo ≤ v ∧ v ≤ hi then some v else none
  match l with
  | 43 :: rest => signed rest false
  | 45 :: rest => signed rest true
  | _ => signed l false

/-- Rust `str::parse::<i64>`. -/
def parseI64 (l : List Nat) : Option Int := parseIntIn (-(2 ^ 63)) (2 ^ 63 - 1) l

/-- Rust `str::parse::<i32>`. -/
def parseI32 (l : List Nat) : Option Int := parseIntIn (-(2 ^ 31)) (2 ^ 31 - 1) l

/-- Decimal digits of a natural number, most significant first; fuel-driven so
that it is structurally recursive (the fuel `n + 1` always suffices). -/
def natToBytesCore : Nat → Nat → List Nat → List Nat
  | 0, _, acc => acc
  | fuel + 1, n, acc =>
    if n < 10 then (48 + n) :: acc
    else natToBytesCore fuel (n / 10) ((48 + n % 10) :: acc)

/-- Rust's `Display` for unsigned decimal: the decimal digit string. -/
def natToBytes (n : Nat) : List Nat := natToBytesCore (n + 1) n []

/-- Rust's `Display` for a signed integer: decimal digits, `-`-prefixed when
negative. -/
def intToBytes : Int → List Nat
  | .ofNat n => natToBytes n
  | .negSucc n => 45 :: natToBytes (n + 1)

/- The literal chunks of the `write!` format string in
`impl fmt::Display for TeleinfoFrame` (braces written `\x7b`/`\x7d`, quotes
`\x22`). -/

def dOpenADCO : List Nat := toBytes ("\x7b\n\x22ADCO\x22: \x7b\x22raw\x22: \x22")
def dNumMid : List Nat := toBytes ("\x22, \x22value\x22: ")
def dStrMid : List Nat := toBytes ("\x22, \x22value\x22: \x22")
def dNumOPTARIF : List Nat := toBytes ("\x7d,\n\x22OPTARIF\x22: \x7b\x22raw\x22: \x22")
def dStrISOUSC : List Nat := toBytes ("\x22\x7d,\n\x22ISOUSC\x22: \x7b\x22raw\x22: \x22")
def dNumBASE : List Nat := toBytes ("\x7d,\n\x22BASE\x22: \x7b\x22raw\x22: \x22")
def dNumPTEC : List Nat := toBytes ("\x7d,\n\x22PTEC\x22: \x7b\x22raw\x22: \x22")
def dStrIINST : List Nat := toBytes ("\x22\x7d,\n\x22IINST\x22: \x7b\x22raw\x22: \x22")
def dNumIMAX : List Nat := toBytes ("\x7d,\n\x22IMAX\x22: \x7b\x22raw\x22: \x22")
def dNumPAPP : List Nat := toBytes ("\x7d,\n\x22PAPP\x22: \x7b\x22raw\x22: \x22")
def dNumHHPHC : List Nat := toBytes ("\x7d,\n\x22HHPHC\x22: \x7b\x22raw\x22: \x22")
def dClose : List Nat := toBytes ("\x22\x7d\n\x7d")

/-- `impl fmt::Display for TeleinfoFrame` from `src/teleinfo/parser.rs`:
the JSON text the frame serializes to.  The `write!` arguments are evaluated
in order before any output, and a failure — `parse::<i64>().unwrap()` or
`parse::<i32>().unwrap()` on a non-numeric field, or the byte slice
`&self.ptec[0..2]` on a `ptec` shorter than two bytes — is a Rust panic,
modelled here by `none`.  Note the output has no `MOTDETAT` member. -/
def display (r : TeleinfoFrame) : Option (List Nat) := do
  let a ← parseI64 r.adco
  let s ← parseI32 r.isousc
  let b ← parseI64 r.base
  let p2 ← if 2 ≤ r.ptec.length then some (r.ptec.take 2) else none
  let ii ← parseI32 r.iinst
  let im ← parseI32 r.imax
  let pa ← parseI32 r.papp
  some (dOpenADCO ++ r.adco ++ dNumMid ++ intToBytes a
    ++ dNumOPTARIF ++ r.optarif ++ dStrMid ++ r.optarif
    ++ dStrISOUSC ++ r.isousc ++ dNumMid ++ intToBytes s
    ++ dNumBASE ++ r.base ++ dNumMid ++ intToBytes b
    ++ dNumPTEC ++ r.ptec ++ dStrMid ++ p2
    ++ dStrIINST ++ r.iinst ++ dNumMid ++ intToBytes ii
    ++ dNumIMAX ++ r.imax ++ dNumMid ++ intToBytes im
    ++ dNumPAPP ++ r.papp ++ dNumMid ++ intToBytes pa
    ++ dNumHHPHC ++ r.hhphc ++ dStrMid ++ r.hhphc
    ++ dClose)

/- Spec-side JSON shape, following the spec's words: a JSON object keyed by
field names, each member `{"raw": <string>, "value": <typed value>}`. -/

/-- Spec-side: the text `": {"raw": "` that follows a member's name. -/
def specKeyOpen : List Nat := toBytes ("\x22: \x7b\x22raw\x22: \x22")

/-- Spec-side: the text `", "value": ` before a numeric value. -/
def specNumMid : List Nat := toBytes ("\x22, \x22value\x22: ")

/-- Spec-side: the text `", "value": "` before a string value. -/
def specStrMid : List Nat := toBytes ("\x22, \x22value\x22: \x22")

/-- Spec-side: the text `"}` closing a string-valued member. -/
def specStrClose : List Nat := toBytes ("\x22\x7d")

/-- Spec-side: one object member `"NAME": {"raw": "RAW", "value": V}` whose
typed value is the integer `v`. -/
def specNumEntry (name raw : List Nat) (v : Int) : List Nat :=
  [34] ++ name ++ specKeyOpen ++ raw ++ specNumMid ++ intToBytes v ++ [125]

/-- Spec-side: one object member `"NAME": {"raw": "RAW", "value": "V"}` whose
typed value is the string `v`. -/
def specStrEntry (name raw v : List Nat) : List Nat :=
  [34] ++ name ++ specKeyOpen ++ raw ++ specStrMid ++ v ++ specStrClose

/-- Spec-side: members joined by `,` and a line break. -/
def sepJoin : List (List Nat) → List Nat
  | [] => []
  | [e] => e
  | e :: rest => e ++ [44, 10] ++ sepJoin rest

/-- Spec-side: a JSON object laid out one member per line. -/
def specJsonObject (entries : List (List Nat)) : List Nat :=
  [123, 10] ++ sepJoin entries ++ [10, 125]

/-- Byte-level substring test: does `pat` occur contiguously in the list? -/
def startsWith : List Nat → List Nat → Bool
  | [], _ => true
  | _ :: _, [] => false
  | p :: ps, x :: xs => p == x && startsWith ps xs

/-- `containsSeg pat l` is true iff `pat` occurs contiguously inside `l`. -/
def containsSeg (pat : List Nat) : List Nat → Bool
  | [] => startsWith pat []
  | x :: xs => startsWith pat (x :: xs) || containsSeg pat xs

/-! ## The stream stage (`src/teleinfo/stream.rs`) -/

/-- Is `b` a UTF-8 continuation byte (0x80–0xBF)? -/
def contB (b : Nat) : Bool := 128 ≤ b && b ≤ 191

/-- Rust `std::str::from_utf8(..).is_ok()`: strict UTF-8 validity, rejecting
overlong encodings, surrogates and code points above U+10FFFF. -/
def utf8Valid : List Nat → Bool
  | [] => true
  | b :: rest =>
    if b ≤ 127 then utf8Valid rest
    else if 194 ≤ b && b ≤ 223 then
      match rest with
      | c1 :: r => contB c1 && utf8Valid r
      | [] => false
    else if b == 224 then
      match rest with
      | c1 :: c2 :: r => (160 ≤ c1 && c1 ≤ 191) && contB c2 && utf8Valid r
      | _ => false
    else if (225 ≤ b && b ≤ 236) || (238 ≤ b && b ≤ 239) then
      match rest with
      | c1 :: c2 :: r => contB c1 && contB c2 && utf8Valid r
      | _ => false
    else if b == 237 then
      match rest with
      | c1 :: c2 :: r => (128 ≤ c1 && c1 ≤ 159) && contB c2 && utf8Valid r
      | _ => false
    else if b == 240 then
      match rest with
      | c1 :: c2 :: c3 :: r =>
        (144 ≤ c1 && c1 ≤ 191) && contB c2 && contB c3 && utf8Valid r
      | _ => false
    else if 241 ≤ b && b ≤ 243 then
      match rest with
      | c1 :: c2 :: c3 :: r => contB c1 && contB c2 && contB c3 && utf8Valid r
      | _ => false
    else if b == 244 then
      match rest with
      | c1 :: c2 :: c3 :: r =>
        (128 ≤ c1 && c1 ≤ 143) && contB c2 && contB c3 && utf8Valid r
      | _ => false
    else false

/-- The byte values of the literal `"ADCO"` the stream stage scans for. -/
def adcoRun : List Nat := toBytes ("ADCO")

/-- The inner `for c in ...flatten("").chars()` loop of `ascii_to_frames`: `rest`
is the not-yet-visited part of the joined last-four-chunks text captured when
the loop started, `i` the current character index, `buf` the current chunk
buffer and `em` the frames yielded so far, in order.  On a match the loop
yields the join of all but the last four chunks of the *current* buffer and
keeps only those last four chunks. -/
def scanGo : List Nat → Nat → List (List Nat) → List (List Nat) →
    List (List Nat) × List (List Nat)
  | [], _, buf, em => (em, buf)
  | c :: cs, i, buf, em =>
    if c == 65 then
      let tailCur := (buf.drop (buf.length - 4)).flatten
      if (tailCur.drop i).take 4 = adcoRun then
        scanGo cs (i + 1) (buf.drop (buf.length - 4))
          (em ++ [(buf.take (buf.length - 4)).flatten])
      else scanGo cs (i + 1) buf em
    else scanGo cs (i + 1) buf em

/-- One iteration of the `while let` loop of `ascii_to_frames`: an invalid
UTF-8 chunk is skipped entirely; a valid chunk first triggers the `ADCO` scan
(only when at least four chunks are buffered), then is pushed onto the
buffer.  Returns the frames yielded during this iteration and the new
buffer. -/
def processChunk (buf : List (List Nat)) (chunk : List Nat) :
    List (List Nat) × List (List Nat) :=
  if utf8Valid chunk then
    let r :=
      if 4 ≤ buf.length then
        scanGo ((buf.drop (buf.length - 4)).flatten) 0 buf []
      else ([], buf)
    (r.1, r.2 ++ [chunk])
  else ([], buf)

/-- The chunk-consuming loop of `ascii_to_frames`, starting from buffer
`buf`. -/
def framesGo : List (List Nat) → List (List Nat) → List (List Nat)
  | _, [] => []
  | buf, c :: cs =>
    let r := processChunk buf c
    r.1 ++ framesGo r.2 cs

/-- `ascii_to_frames` from `src/teleinfo/stream.rs`, as the function from the
finite sequence of received chunks to the sequence of emitted frame texts. -/
def ascii_to_frames (chunks : List (List Nat)) : List (List Nat) :=
  framesGo [] chunks

/-- `frame_to_teleinfo` from `src/teleinfo/stream.rs`: parse each frame text;
a successful parse yields its `TeleinfoFrame`, a failed parse yields nothing
to the output stream (the error is only printed with `eprintln!`). -/
def frame_to_teleinfo : List (List Nat) → List TeleinfoFrame
  | [] => []
  | f :: fs =>
    match parse_teleinfo f with
    | .ok t => t :: frame_to_teleinfo fs
    | .error _ => frame_to_teleinfo fs

/-! ## Concrete protocol data -/

/-- The canonical ten-line sample frame (the one of the repository's
`test_parse_teleinfo_valid`). -/
def sampleFrame : List Nat :=
  toBytes ("ADCO 012345678901 E\nOPTARIF BASE 0\nISOUSC 30 9\nBASE 002809718 .\nPTEC TH.. $\nIINST 002 Y\nIMAX 090 H\nPAPP 00390 -\nHHPHC A ,\nMOTDETAT 000000 B")

/-- The reading the canonical sample frame decodes to. -/
def sampleReading : TeleinfoFrame where
  adco := toBytes ("012345678901")
  optarif := toBytes ("BASE")
  isousc := toBytes ("30")
  base := toBytes ("002809718")
  ptec := toBytes ("TH..")
  iinst := toBytes ("002")
  imax := toBytes ("090")
  papp := toBytes ("00390")
  hhphc := toBytes ("A")
  motdetat := toBytes ("000000")

/-- The sample frame with the ADCO line's checksum character flipped from `E`
to `X` (the spec's P2 corruption). -/
def corruptedFrame : List Nat :=
  toBytes ("ADCO 012345678901 X\nOPTARIF BASE 0\nISOUSC 30 9\nBASE 002809718 .\nPTEC TH.. $\nIINST 002 Y\nIMAX 090 H\nPAPP 00390 -\nHHPHC A ,\nMOTDETAT 000000 B")

/-- The sample frame with the MOTDETAT line removed (the spec's P3 frame). -/
def missingMotdetatFrame : List Nat :=
  toBytes ("ADCO 012345678901 E\nOPTARIF BASE 0\nISOUSC 30 9\nBASE 002809718 .\nPTEC TH.. $\nIINST 002 Y\nIMAX 090 H\nPAPP 00390 -\nHHPHC A ,")

/-- The sample frame whose PTEC line carries the one-character value `T`
(line `PTEC T @`, whose checksum byte `@` is valid). -/
def shortPtecFrame : List Nat :=
  toBytes ("ADCO 012345678901 E\nOPTARIF BASE 0\nISOUSC 30 9\nBASE 002809718 .\nPTEC T @\nIINST 002 Y\nIMAX 090 H\nPAPP 00390 -\nHHPHC A ,\nMOTDETAT 000000 B")

/-- The reading `shortPtecFrame` decodes to: `ptec` is the single byte `T`. -/
def shortPtecReading : TeleinfoFrame where
  adco := toBytes ("012345678901")
  optarif := toBytes ("BASE")
  isousc := toBytes ("30")
  base := toBytes ("002809718")
  ptec := toBytes ("T")
  iinst := toBytes ("002")
  imax := toBytes ("090")
  papp := toBytes ("00390")
  hhphc := toBytes ("A")
  motdetat := toBytes ("000000")

/-- The sample frame with a second, later `IINST` line carrying value `005`
(line `IINST 005 \`, checksum-valid). -/
def dupIinstFrame : List Nat :=
  toBytes ("ADCO 012345678901 E\nOPTARIF BASE 0\nISOUSC 30 9\nBASE 002809718 .\nPTEC TH.. $\nIINST 002 Y\nIMAX 090 H\nPAPP 00390 -\nHHPHC A ,\nMOTDETAT 000000 B\nIINST 005 \x5c")

/-- The reading `dupIinstFrame` decodes to: `iinst` is the later `005`. -/
def dupIinstReading : TeleinfoFrame where
  adco := toBytes ("012345678901")
  optarif := toBytes ("BASE")
  isousc := toBytes ("30")
  base := toBytes ("002809718")
  ptec := toBytes ("TH..")
  iinst := toBytes ("005")
  imax := toBytes ("090")
  papp := toBytes ("00390")
  hhphc := toBytes ("A")
  motdetat := toBytes ("000000")

/-! ## Characterizing the checksum search -/

/-- The index of the last separator, computed back-to-front; a recursion-
friendly restatement of `rposSep` used to reason about it. -/
def lastSepIdx : List Nat → Option Nat
  | [] => none
  | b :: rest =>
    match lastSepIdx rest with
    | some j => some (j + 1)
    | none => if isSep b then some 0 else none

theorem rposAux_eq (l : List Nat) : ∀ (i : Nat) (best : Option Nat),
    rposAux l i best =
      match lastSepIdx l with
      | some j => some (i + j)
      | none => best := by
  induction l with
  | nil => intro i best; rfl
  | cons b rest ih =>
    intro i best
    simp only [rposAux, ih, lastSepIdx]
    cases h : lastSepIdx rest with
    | some j => exact congrArg some (by omega : i + 1 + j = i + (j + 1))
    | none => cases hs : isSep b <;> simp

theorem rposSep_eq (l : List Nat) : rposSep l = lastSepIdx l := by
  simp only [rposSep, rposAux_eq]
  cases h : lastSepIdx l <;> simp

theorem lastSepIdx_none (l : List Nat) (h : lastSepIdx l = none) :
    ∀ q, q < l.length → isSep (l.getD q 0) = false := by
  induction l with
  | nil => intro q hq; simp at hq
  | cons b rest ih =>
    intro q hq
    simp only [lastSepIdx] at h
    cases hr : lastSepIdx rest with
    | some j => rw [hr] at h; simp at h
    | none =>
      rw [hr] at h
      cases hs : isSep b with
      | true => rw [hs] at h; simp at h
      | false =>
        cases q with
        | zero => simpa using hs
        | succ q' =>
          simp only [List.getD_cons_succ]
          exact ih hr q' (by simpa using hq)

theorem lastSepIdx_some (l : List Nat) (p : Nat) (h : lastSepIdx l = some p) :
    p < l.length ∧ isSep (l.getD p 0) = true ∧
      ∀ q, p < q → q < l.length → isSep (l.getD q 0) = false := by
  induction l generalizing p with
  | nil => simp [lastSepIdx] at h
  | cons b rest ih =>
    simp only [lastSepIdx] at h
    cases hr : lastSepIdx rest with
    | some j =>
      rw [hr] at h
      simp only [Option.some.injEq] at h
      subst h
      obtain ⟨h1, h2, h3⟩ := ih j hr
      refine ⟨by simpa using Nat.succ_lt_succ h1, by simpa using h2, ?_⟩
      intro q hq1 hq2
      cases q with
      | zero => omega
      | succ q' =>
        simp only [List.getD_cons_succ]
        exact h3 q' (by omega) (by simpa using hq2)
    | none =>
      rw [hr] at h
      cases hs : isSep b with
      | false => rw [hs] at h; simp at h
      | true =>
        rw [hs] at h
        simp only [if_true, Option.some.injEq] at h
        subst h
        refine ⟨by simp, by simpa using hs, ?_⟩
        intro q hq1 hq2
        cases q with
        | zero => omega
        | succ q' =>
          simp only [List.getD_cons_succ]
          exact lastSepIdx_none rest hr q' (by simpa using hq2)

/-- **C3.**  `validate_checksum` succeeds exactly when the line has a last
separator byte (space or tab), at least one byte follows it, and the byte
immediately after it equals `(sum of the bytes strictly before the last
separator & 0x3F) + 0x20`.  Lines without a separator, and lines whose last
separator is the final byte, therefore fail. -/
theorem validate_checksum_iff (l : List Nat) :
    validate_checksum l = true ↔
      ∃ p, p + 1 < l.length ∧ isSep (l.getD p 0) = true ∧
        (∀ q, p < q → q < l.length → isSep (l.getD q 0) = false) ∧
        l.getD (p + 1) 0 = ((l.take p).foldl (fun a b => a + b) 0 &&& 63) + 32 := by
  cases h : lastSepIdx l with
  | none =>
    have hne : validate_checksum l = false := by
      unfold validate_checksum
      rw [rposSep_eq, h]
      cases l <;> simp
    rw [hne]
    simp only [Bool.false_eq_true, false_iff]
    rintro ⟨p, h1, h2, -, -⟩
    rw [lastSepIdx_none l h p (by omega)] at h2
    exact Bool.false_ne_true h2
  | some p =>
    obtain ⟨hp1, hp2, hp3⟩ := lastSepIdx_some l p h
    have hmod : ∀ s : Nat, ((s &&& 63) + 32) % 256 = (s &&& 63) + 32 := by
      intro s
      have := Nat.and_le_right (n := s) (m := 63)
      omega
    have hne : l.isEmpty = false := by cases l with
      | nil => simp [lastSepIdx] at h
      | cons b bs => simp
    constructor
    · intro hv
      unfold validate_checksum at hv
      rw [rposSep_eq, h, hne] at hv
      simp only [Bool.false_eq_true, if_false] at hv
      by_cases hlen : l.length ≤ p + 1
      · rw [if_pos hlen] at hv; exact absurd hv (by simp)
      · rw [if_neg hlen] at hv
        rw [hmod] at hv
        exact ⟨p, by omega, hp2, hp3, by simpa using hv⟩
    · rintro ⟨p', h1, h2, h3, h4⟩
      have hpp : p' = p := by
        rcases Nat.lt_trichotomy p' p with hlt | heq | hgt
        · rw [h3 p hlt hp1] at hp2; exact absurd hp2 (by simp)
        · exact heq
        · rw [hp3 p' hgt (by omega)] at h2; exact absurd h2 (by simp)
      subst hpp
      unfold validate_checksum
      rw [rposSep_eq, h, hne]
      simp only [Bool.false_eq_true, if_false]
      rw [if_neg (by omega), hmod]
      simpa using h4

/-! ## Tokenization facts

A trimmed line that passes `validate_checksum` always yields at least two
whitespace-delimited tokens, so the `Missing key` / `Missing value` paths of
`parse_teleinfo` are unreachable for checksum-valid lines. -/

theorem splitWsAux_length_pos (l : List Nat) : ∀ acc : List Nat,
    acc.isEmpty = false → 1 ≤ (splitWsAux l acc).length := by
  induction l with
  | nil => intro acc h; simp [splitWsAux, h]
  | cons b rest ih =>
    intro acc h
    simp only [splitWsAux]
    cases hw : isWs b with
    | true => simp [h]
    | false => exact ih (b :: acc) (by simp)

theorem splitWsAux_nil_pos (l : List Nat) (h : ∃ x ∈ l, isWs x = false) :
    1 ≤ (splitWsAux l []).length := by
  induction l with
  | nil => simp at h
  | cons b rest ih =>
    simp only [splitWsAux]
    cases hw : isWs b with
    | true =>
      simp only [List.isEmpty_nil, if_true]
      apply ih
      obtain ⟨x, hx, hxw⟩ := h
      rcases List.mem_cons.mp hx with rfl | hx'
      · rw [hw] at hxw; exact absurd hxw (by simp)
      · exact ⟨x, hx', hxw⟩
    | false => exact splitWsAux_length_pos rest [b] (by simp)

theorem splitWsAux_two (s : Nat) (bl : List Nat)
    (hs : isWs s = true) (hb : ∃ y ∈ bl, isWs y = false) :
    ∀ (a : List Nat) (acc : List Nat),
      (acc.isEmpty = false ∨ ∃ x ∈ a, isWs x = false) →
      2 ≤ (splitWsAux (a ++ s :: bl) acc).length := by
  intro a
  induction a with
  | nil =>
    intro acc hacc
    rcases hacc with hacc | ⟨x, hx, -⟩
    · simp only [List.nil_append, splitWsAux, hs, if_true, hacc]
      have h1 := splitWsAux_nil_pos bl hb
      simp only [Bool.false_eq_true, if_false, List.length_cons]
      omega
    · simp at hx
  | cons x a' ih =>
    intro acc hacc
    simp only [List.cons_append, splitWsAux]
    cases hw : isWs x with
    | true =>
      cases hae : acc.isEmpty with
      | true =>
        simp only [if_true]
        apply ih []
        rcases hacc with hacc | ⟨x', hx', hxw'⟩
        · rw [hae] at hacc; exact absurd hacc (by simp)
        · rcases List.mem_cons.mp hx' with rfl | hmem
          · rw [hw] at hxw'; exact absurd hxw' (by simp)
          · exact Or.inr ⟨x', hmem, hxw'⟩
      | false =>
        obtain ⟨y, hy, hyw⟩ := hb
        have h1 := splitWsAux_nil_pos (a' ++ s :: bl)
          ⟨y, List.mem_append_right _ (List.mem_cons_of_mem _ hy), hyw⟩
        show 2 ≤ (acc.reverse :: splitWsAux (a' ++ s :: bl) []).length
        simp only [List.length_cons]
        omega
    | false => exact ih (x :: acc) (Or.inl (by simp))

theorem dropWhile_head_not (p : Nat → Bool) (l : List Nat) (b : Nat)
    (bs : List Nat) (h : l.dropWhile p = b :: bs) : p b = false := by
  induction l with
  | nil => simp at h
  | cons x rest ih =>
    rw [List.dropWhile_cons] at h
    cases hp : p x with
    | true => rw [hp] at h; simp only [if_true] at h; exact ih h
    | false =>
      rw [hp] at h
      simp only [Bool.false_eq_true, if_false, List.cons.injEq] at h
      rw [← h.1]; exact hp

theorem dropWhile_getLast? (p : Nat → Bool) (l : List Nat)
    (h : (l.dropWhile p).isEmpty = false) :
    (l.dropWhile p).getLast? = l.getLast? := by
  induction l with
  | nil => simp at h
  | cons x rest ih =>
    rw [List.dropWhile_cons] at h ⊢
    cases hp : p x with
    | false => rfl
    | true =>
      rw [hp] at h
      simp only [if_true] at h ⊢
      rw [ih h]
      cases hr : rest with
      | nil => rw [hr] at h; simp at h
      | cons y t => rw [List.getLast?_cons_cons]

theorem trimB_head_last (l : List Nat) (b : Nat) (bs : List Nat)
    (h : trimB l = b :: bs) :
    isWs b = false ∧ ∃ z, (b :: bs).getLast? = some z ∧ isWs z = false := by
  unfold trimB at h
  constructor
  · have hXne : ((l.dropWhile isWs).reverse.dropWhile isWs).isEmpty = false := by
      cases hXe : (l.dropWhile isWs).reverse.dropWhile isWs with
      | nil => rw [hXe] at h; simp at h
      | cons x t => simp
    have h1 : ((l.dropWhile isWs).reverse.dropWhile isWs).getLast? = some b := by
      rw [← List.head?_reverse, h]; rfl
    have h2 : (l.dropWhile isWs).reverse.getLast? = some b := by
      rw [← dropWhile_getLast? isWs _ hXne]; exact h1
    have h3 : (l.dropWhile isWs).head? = some b := by
      rw [← List.getLast?_reverse]; exact h2
    cases hAe : l.dropWhile isWs with
    | nil => rw [hAe] at h3; simp at h3
    | cons a t =>
      rw [hAe] at h3
      simp only [List.head?_cons, Option.some.injEq] at h3
      subst h3
      exact dropWhile_head_not isWs l a t hAe
  · have h4 : (b :: bs).getLast? =
        ((l.dropWhile isWs).reverse.dropWhile isWs).head? := by
      rw [← h, List.getLast?_reverse]
    cases hXe : (l.dropWhile isWs).reverse.dropWhile isWs with
    | nil => rw [hXe] at h; simp at h
    | cons x t =>
      refine ⟨x, by rw [h4, hXe]; rfl, ?_⟩
      exact dropWhile_head_not isWs (l.dropWhile isWs).reverse x t hXe

theorem drop_getLast? (l : List Nat) : ∀ n, (l.drop n).isEmpty = false →
    (l.drop n).getLast? = l.getLast? := by
  induction l with
  | nil => intro n h; simp at h
  | cons x t ih =>
    intro n h
    cases n with
    | zero => rfl
    | succ n' =>
      rw [List.drop_succ_cons] at h ⊢
      rw [ih n' h]
      cases ht : t with
      | nil => rw [ht] at h; simp at h
      | cons y u => rw [List.getLast?_cons_cons]

theorem isSep_isWs (c : Nat) (hc : isSep c = true) : isWs c = true := by
  simp only [isSep, Bool.or_eq_true, beq_iff_eq] at hc
  rcases hc with rfl | rfl <;> rfl

/-- A nonempty trimmed line that validates its checksum splits into at least
two whitespace-delimited tokens. -/
theorem splitWs_two_tokens (b : Nat) (bs : List Nat)
    (hhead : isWs b = false)
    (hlast : ∃ z, (b :: bs).getLast? = some z ∧ isWs z = false)
    (hcs : validate_checksum (b :: bs) = true) :
    ∃ k v rest, splitWs (b :: bs) = k :: v :: rest := by
  obtain ⟨p, hp1, hp2, -, -⟩ := (validate_checksum_iff (b :: bs)).mp hcs
  obtain ⟨z, hz1, hz2⟩ := hlast
  have hp0 : p ≠ 0 := by
    intro he
    subst he
    simp only [List.getD_cons_zero] at hp2
    rw [isSep_isWs b hp2] at hhead
    exact absurd hhead (by simp)
  have hlt : p < (b :: bs).length := by omega
  have hdec : (b :: bs).drop p = (b :: bs).getD p 0 :: (b :: bs).drop (p + 1) := by
    rw [List.drop_eq_getElem_cons hlt]
    congr 1
    rw [List.getD_eq_getElem (b :: bs) 0 hlt]
  have hsplit : (b :: bs).take p ++ (b :: bs).getD p 0 :: (b :: bs).drop (p + 1)
      = b :: bs := by
    rw [← hdec, List.take_append_drop]
  have hdne : ((b :: bs).drop (p + 1)).isEmpty = false := by
    cases hd : (b :: bs).drop (p + 1) with
    | nil =>
      have := congrArg List.length hd
      simp only [List.length_drop, List.length_nil] at this
      omega
    | cons _ _ => simp
  have hblast : ((b :: bs).drop (p + 1)).getLast? = some z := by
    rw [drop_getLast? _ _ hdne]; exact hz1
  have hzmem : z ∈ (b :: bs).drop (p + 1) :=
    List.mem_of_mem_getLast? (Option.mem_def.mpr hblast)
  have hbmem : b ∈ (b :: bs).take p := by
    cases hp : p with
    | zero => exact absurd hp hp0
    | succ p' => rw [List.take_succ_cons]; exact List.mem_cons_self _ _
  have h2 := splitWsAux_two ((b :: bs).getD p 0) ((b :: bs).drop (p + 1))
    (isSep_isWs _ hp2) ⟨z, hzmem, hz2⟩ ((b :: bs).take p) []
    (Or.inr ⟨b, hbmem, hhead⟩)
  rw [hsplit] at h2
  have h2' : 2 ≤ (splitWs (b :: bs)).length := h2
  rcases hsw : splitWs (b :: bs) with - | ⟨k, - | ⟨v, rest⟩⟩
  · rw [hsw] at h2'; simp at h2'
  · rw [hsw] at h2'; simp at h2'
  · exact ⟨k, v, rest, rfl⟩

/-! ## Frame rejection on checksum failure -/

theorem collectPairs_checksum_err (ls : List (List Nat))
    (h : ∃ line ∈ ls, (trimB line).isEmpty = false ∧
          (trimB line).head? ≠ some 2 ∧ (trimB line).head? ≠ some 3 ∧
          validate_checksum (trimB line) = false) :
    ∃ t, collectPairs ls = .error (.checksum t) ∧
      ∃ line ∈ ls, t = trimB line ∧ validate_checksum t = false := by
  induction ls with
  | nil => simp at h
  | cons line rest ih =>
    obtain ⟨l0, hl0mem, hc1, hc2, hc3, hc4⟩ := h
    cases htr : trimB line with
    | nil =>
      have hmem : l0 ∈ rest := by
        rcases List.mem_cons.mp hl0mem with rfl | hm
        · rw [htr] at hc1; simp at hc1
        · exact hm
      obtain ⟨t, hcp, l1, hmem1, ht1, ht2⟩ := ih ⟨l0, hmem, hc1, hc2, hc3, hc4⟩
      refine ⟨t, ?_, l1, List.mem_cons_of_mem _ hmem1, ht1, ht2⟩
      simp only [collectPairs, htr]
      exact hcp
    | cons b bs =>
      cases hctl : (b == 2 || b == 3) with
      | true =>
        have hmem : l0 ∈ rest := by
          rcases List.mem_cons.mp hl0mem with rfl | hm
          · rw [htr] at hc2 hc3
            simp only [List.head?_cons, ne_eq, Option.some.injEq] at hc2 hc3
            simp only [Bool.or_eq_true, beq_iff_eq] at hctl
            rcases hctl with rfl | rfl
            · exact absurd rfl hc2
            · exact absurd rfl hc3
          · exact hm
        obtain ⟨t, hcp, l1, hmem1, ht1, ht2⟩ := ih ⟨l0, hmem, hc1, hc2, hc3, hc4⟩
        refine ⟨t, ?_, l1, List.mem_cons_of_mem _ hmem1, ht1, ht2⟩
        simp only [collectPairs, htr, hctl, if_true]
        exact hcp
      | false =>
        cases hv : validate_checksum (b :: bs) with
        | false =>
          refine ⟨b :: bs, ?_, line, List.mem_cons_self _ _, htr.symm, hv⟩
          simp only [collectPairs, htr, hctl, hv, Bool.false_eq_true, if_false]
        | true =>
          obtain ⟨hh, z, hz1, hz2⟩ := trimB_head_last line b bs htr
          obtain ⟨k, v, rest', hs⟩ := splitWs_two_tokens b bs hh ⟨z, hz1, hz2⟩ hv
          have hmem : l0 ∈ rest := by
            rcases List.mem_cons.mp hl0mem with rfl | hm
            · rw [htr] at hc4; rw [hc4] at hv; exact absurd hv (by simp)
            · exact hm
          obtain ⟨t, hcp, l1, hmem1, ht1, ht2⟩ := ih ⟨l0, hmem, hc1, hc2, hc3, hc4⟩
          refine ⟨t, ?_, l1, List.mem_cons_of_mem _ hmem1, ht1, ht2⟩
          simp only [collectPairs, htr, hctl, hv, Bool.false_eq_true, if_false,
            if_true, hs, hcp, Except.map]

/-- **C5.**  A frame containing a line that, once trimmed, is non-blank, does
not begin with STX/ETX, and fails `validate_checksum`, is rejected whole:
`parse_teleinfo` returns the checksum error for such a line and constructs no
reading. -/
theorem checksum_failure_rejects_frame (frame : List Nat)
    (h : ∃ line ∈ linesB frame, (trimB line).isEmpty = false ∧
          (trimB line).head? ≠ some 2 ∧ (trimB line).head? ≠ some 3 ∧
          validate_checksum (trimB line) = false) :
    ∃ t, parse_teleinfo frame = .error (.checksum t) ∧
      ∃ line ∈ linesB frame, t = trimB line ∧ validate_checksum t = false := by
  obtain ⟨t, hcp, hw⟩ := collectPairs_checksum_err (linesB frame) h
  refine ⟨t, ?_, hw⟩
  unfold parse_teleinfo
  rw [hcp]
  rfl

/-- **C5, witness.**  The spec's P2 corruption: flipping the ADCO line's
checksum character from `E` to `X` makes the whole canonical frame be
rejected with the checksum error for that line. -/
theorem checksum_failure_rejects_frame_witness :
    ∃ t, parse_teleinfo corruptedFrame = .error (.checksum t) ∧
      ∃ line ∈ linesB corruptedFrame, t = trimB line ∧
        validate_checksum t = false :=
  checksum_failure_rejects_frame corruptedFrame (by decide)

/-! ## The decode pipeline's treatment of per-frame failures -/

/-- **C2 (amended).**  `frame_to_teleinfo` yields the parsed reading of every
frame that parses, yields *nothing* for a frame that fails to parse (the
error is only printed to stderr; the output stream has no error items), and
continues with the remaining frames after either outcome. -/
theorem frame_to_teleinfo_behavior (bad good : List Nat)
    (rest : List (List Nat)) (e : ParseErr) (r : TeleinfoFrame)
    (hbad : parse_teleinfo bad = .error e)
    (hgood : parse_teleinfo good = .ok r) :
    frame_to_teleinfo (bad :: rest) = frame_to_teleinfo rest ∧
    frame_to_teleinfo (good :: rest) = r :: frame_to_teleinfo rest := by
  constructor
  · simp only [frame_to_teleinfo, hbad]
  · simp only [frame_to_teleinfo, hgood]

/-- **C2, witness.**  Concrete instance of `frame_to_teleinfo_behavior`: the
unparsable frame `invalid` contributes nothing, the canonical sample frame
contributes its reading. -/
theorem frame_to_teleinfo_behavior_witness :
    frame_to_teleinfo [toBytes ("invalid"), sampleFrame] =
      frame_to_teleinfo [sampleFrame] ∧
    frame_to_teleinfo [sampleFrame, sampleFrame] =
      sampleReading :: frame_to_teleinfo [sampleFrame] :=
  frame_to_teleinfo_behavior (toBytes ("invalid")) sampleFrame [sampleFrame]
    (.checksum (toBytes ("invalid"))) sampleReading (by decide) (by decide)

/-- **C2, counterexample.**  A frame that fails line-checksum validation
produces *no* item in the pipeline's output sequence — not one `Err` item as
claimed: the output stream's item type is `TeleinfoFrame` itself, and the
failing frame `invalid` yields an empty output. -/
theorem frame_to_teleinfo_drops_errors :
    parse_teleinfo (toBytes ("invalid")) =
      .error (.checksum (toBytes ("invalid"))) ∧
    frame_to_teleinfo [toBytes ("invalid")] = [] := by decide

/-! ## The label map: last occurrence wins -/

/-- Spec-side: the value at the *last* occurrence of key `k` in the pair
list, if any — a later occurrence takes precedence over every earlier one. -/
def lastVal : List (List Nat × List Nat) → List Nat → Option (List Nat)
  | [], _ => none
  | p :: rest, k =>
    match lastVal rest k with
    | some v => some v
    | none => if p.1 = k then some p.2 else none

/-- Does some pair in the list carry key `k`? -/
def hasKey (ps : List (List Nat × List Nat)) (k : List Nat) : Bool :=
  ps.any (fun p => p.1 == k)

theorem lookupA_insertA (m : List (List Nat × List Nat)) (k' v k : List Nat) :
    lookupA (insertA m k' v) k = if k' = k then some v else lookupA m k := by
  induction m with
  | nil => simp [insertA, lookupA]
  | cons p rest ih =>
    obtain ⟨pk, pv⟩ := p
    simp only [insertA]
    by_cases h1 : pk = k'
    · rw [if_pos h1]
      by_cases h2 : k' = k
      · simp only [lookupA, if_pos h2]
      · simp only [lookupA, if_neg h2, if_neg (h1 ▸ h2)]
    · rw [if_neg h1]
      by_cases h3 : pk = k
      · have h4 : ¬ k' = k := fun he => h1 (h3 ▸ he.symm ▸ rfl)
        simp only [lookupA, if_pos h3, if_neg h4]
      · simp only [lookupA, if_neg h3, ih]

theorem lookupA_foldl_insertA (ps : List (List Nat × List Nat)) (k : List Nat) :
    ∀ m, lookupA (ps.foldl (fun m p => insertA m p.1 p.2) m) k =
      match lastVal ps k with
      | some v => some v
      | none => lookupA m k := by
  induction ps with
  | nil => intro m; rfl
  | cons p rest ih =>
    intro m
    simp only [List.foldl_cons, ih (insertA m p.1 p.2), lookupA_insertA, lastVal]
    cases h : lastVal rest k with
    | some v => rfl
    | none => by_cases hp : p.1 = k <;> simp [hp]

/-- `HashMap` lookup after all inserts is exactly "the last occurrence of the
key wins". -/
theorem lookupA_buildMap (ps : List (List Nat × List Nat)) (k : List Nat) :
    lookupA (buildMap ps) k = lastVal ps k := by
  unfold buildMap
  rw [lookupA_foldl_insertA]
  cases h : lastVal ps k <;> rfl

theorem lastVal_none_iff (ps : List (List Nat × List Nat)) (k : List Nat) :
    lastVal ps k = none ↔ hasKey ps k = false := by
  induction ps with
  | nil => simp [lastVal, hasKey]
  | cons p rest ih =>
    simp only [lastVal, hasKey, List.any_cons, Bool.or_eq_false_iff] at ih ⊢
    cases h : lastVal rest k with
    | some v =>
      simp only []
      constructor
      · intro he; exact absurd he (by simp)
      · rintro ⟨-, hrest⟩
        rw [ih.mpr hrest] at h
        exact absurd h (by simp)
    | none =>
      have hrest := ih.mp h
      by_cases hp : p.1 = k
      · simp [hp, hrest]
      · simp [hp, hrest, beq_iff_eq]

theorem obind_some {α β : Type} (a : α) (f : α → Option β) :
    (some a >>= f) = f a := rfl

theorem exbind_ok {α β : Type} (a : α) (f : α → Except ParseErr β) :
    (Except.ok a >>= f) = f a := rfl

theorem exbind_err {α β : Type} (e : ParseErr) (f : α → Except ParseErr β) :
    ((Except.error e : Except ParseErr α) >>= f) = Except.error e := rfl

/-- `parse_teleinfo` after a successful line scan, as the chain of the ten
label lookups, failing at the first absent label. -/
theorem parse_char (frame : List Nat) (ps : List (List Nat × List Nat))
    (hcp : collectPairs (linesB frame) = .ok ps) :
    parse_teleinfo frame =
      match lookupA (buildMap ps) lADCO with
      | none => .error (.missingField lADCO)
      | some adco =>
        match lookupA (buildMap ps) lOPTARIF with
        | none => .error (.missingField lOPTARIF)
        | some optarif =>
          match lookupA (buildMap ps) lISOUSC with
          | none => .error (.missingField lISOUSC)
          | some isousc =>
            match lookupA (buildMap ps) lBASE with
            | none => .error (.missingField lBASE)
            | some base =>
              match lookupA (buildMap ps) lPTEC with
              | none => .error (.missingField lPTEC)
              | some ptec =>
                match lookupA (buildMap ps) lIINST with
                | none => .error (.missingField lIINST)
                | some iinst =>
                  match lookupA (buildMap ps) lIMAX with
                  | none => .error (.missingField lIMAX)
                  | some imax =>
                    match lookupA (buildMap ps) lPAPP with
                    | none => .error (.missingField lPAPP)
                    | some papp =>
                      match lookupA (buildMap ps) lHHPHC with
                      | none => .error (.missingField lHHPHC)
                      | some hhphc =>
                        match lookupA (buildMap ps) lMOTDETAT with
                        | none => .error (.missingField lMOTDETAT)
                        | some motdetat =>
                          .ok ⟨adco, optarif, isousc, base, ptec, iinst,
                            imax, papp, hhphc, motdetat⟩ := by
  unfold parse_teleinfo
  rw [hcp]
  simp only [exbind_ok]
  cases lookupA (buildMap ps) lADCO <;> simp only [okOr, exbind_ok, exbind_err]
  cases lookupA (buildMap ps) lOPTARIF <;> simp only [okOr, exbind_ok, exbind_err]
  cases lookupA (buildMap ps) lISOUSC <;> simp only [okOr, exbind_ok, exbind_err]
  cases lookupA (buildMap ps) lBASE <;> simp only [okOr, exbind_ok, exbind_err]
  cases lookupA (buildMap ps) lPTEC <;> simp only [okOr, exbind_ok, exbind_err]
  cases lookupA (buildMap ps) lIINST <;> simp only [okOr, exbind_ok, exbind_err]
  cases lookupA (buildMap ps) lIMAX <;> simp only [okOr, exbind_ok, exbind_err]
  cases lookupA (buildMap ps) lPAPP <;> simp only [okOr, exbind_ok, exbind_err]
  cases lookupA (buildMap ps) lHHPHC <;> simp only [okOr, exbind_ok, exbind_err]
  cases lookupA (buildMap ps) lMOTDETAT <;> simp only [okOr, exbind_ok, exbind_err]
  rfl

/-- **C9.**  If a frame parses into a reading, every one of the ten fields
holds the value of the *last* occurrence of its label among the parsed
(label, value) pairs in line order: for duplicated labels the last occurrence
wins. -/
theorem parse_fields_last_occurrence (frame : List Nat) (r : TeleinfoFrame)
    (h : parse_teleinfo frame = .ok r) :
    ∃ ps, collectPairs (linesB frame) = .ok ps ∧
      lastVal ps lADCO = some r.adco ∧
      lastVal ps lOPTARIF = some r.optarif ∧
      lastVal ps lISOUSC = some r.isousc ∧
      lastVal ps lBASE = some r.base ∧
      lastVal ps lPTEC = some r.ptec ∧
      lastVal ps lIINST = some r.iinst ∧
      lastVal ps lIMAX = some r.imax ∧
      lastVal ps lPAPP = some r.papp ∧
      lastVal ps lHHPHC = some r.hhphc ∧
      lastVal ps lMOTDETAT = some r.motdetat := by
  cases hcp : collectPairs (linesB frame) with
  | error e =>
    unfold parse_teleinfo at h
    rw [hcp] at h
    exact Except.noConfusion h
  | ok ps =>
    rw [parse_char frame ps hcp] at h
    refine ⟨ps, rfl, ?_⟩
    cases h1 : lookupA (buildMap ps) lADCO with
    | none => simp only [h1] at h; exact Except.noConfusion h
    | some v1 =>
    simp only [h1] at h
    cases h2 : lookupA (buildMap ps) lOPTARIF with
    | none => simp only [h2] at h; exact Except.noConfusion h
    | some v2 =>
    simp only [h2] at h
    cases h3 : lookupA (buildMap ps) lISOUSC with
    | none => simp only [h3] at h; exact Except.noConfusion h
    | some v3 =>
    simp only [h3] at h
    cases h4 : lookupA (buildMap ps) lBASE with
    | none => simp only [h4] at h; exact Except.noConfusion h
    | some v4 =>
    simp only [h4] at h
    cases h5 : lookupA (buildMap ps) lPTEC with
    | none => simp only [h5] at h; exact Except.noConfusion h
    | some v5 =>
    simp only [h5] at h
    cases h6 : lookupA (buildMap ps) lIINST with
    | none => simp only [h6] at h; exact Except.noConfusion h
    | some v6 =>
    simp only [h6] at h
    cases h7 : lookupA (buildMap ps) lIMAX with
    | none => simp only [h7] at h; exact Except.noConfusion h
    | some v7 =>
    simp only [h7] at h
    cases h8 : lookupA (buildMap ps) lPAPP with
    | none => simp only [h8] at h; exact Except.noConfusion h
    | some v8 =>
    simp only [h8] at h
    cases h9 : lookupA (buildMap ps) lHHPHC with
    | none => simp only [h9] at h; exact Except.noConfusion h
    | some v9 =>
    simp only [h9] at h
    cases h10 : lookupA (buildMap ps) lMOTDETAT with
    | none => simp only [h10] at h; exact Except.noConfusion h
    | some v10 =>
    simp only [h10, Except.ok.injEq] at h
    subst h
    refine ⟨?_, ?_, ?_, ?_, ?_, ?_, ?_, ?_, ?_, ?_⟩ <;> rw [← lookupA_buildMap]
    exacts [h1, h2, h3, h4, h5, h6, h7, h8, h9, h10]

/-- **C9, witness.**  The theorem applied to the concrete frame carrying two
`IINST` lines (`002` then `005`): the reading holds the later `005`. -/
theorem parse_fields_last_occurrence_witness :
    ∃ ps, collectPairs (linesB dupIinstFrame) = .ok ps ∧
      lastVal ps lADCO = some dupIinstReading.adco ∧
      lastVal ps lOPTARIF = some dupIinstReading.optarif ∧
      lastVal ps lISOUSC = some dupIinstReading.isousc ∧
      lastVal ps lBASE = some dupIinstReading.base ∧
      lastVal ps lPTEC = some dupIinstReading.ptec ∧
      lastVal ps lIINST = some dupIinstReading.iinst ∧
      lastVal ps lIMAX = some dupIinstReading.imax ∧
      lastVal ps lPAPP = some dupIinstReading.papp ∧
      lastVal ps lHHPHC = some dupIinstReading.hhphc ∧
      lastVal ps lMOTDETAT = some dupIinstReading.motdetat :=
  parse_fields_last_occurrence dupIinstFrame dupIinstReading (by decide)

theorem collectPairs_ok (ls : List (List Nat))
    (h : ∀ line ∈ ls, (trimB line).isEmpty = false →
          (trimB line).head? ≠ some 2 → (trimB line).head? ≠ some 3 →
          validate_checksum (trimB line) = true) :
    ∃ ps, collectPairs ls = .ok ps := by
  induction ls with
  | nil => exact ⟨[], rfl⟩
  | cons line rest ih =>
    obtain ⟨ps, hps⟩ := ih (fun l hl => h l (List.mem_cons_of_mem _ hl))
    cases htr : trimB line with
    | nil =>
      refine ⟨ps, ?_⟩
      simp only [collectPairs, htr]
      exact hps
    | cons b bs =>
      cases hctl : (b == 2 || b == 3) with
      | true =>
        refine ⟨ps, ?_⟩
        simp only [collectPairs, htr, hctl, if_true]
        exact hps
      | false =>
        have hv : validate_checksum (b :: bs) = true := by
          have hline := h line (List.mem_cons_self _ _)
          rw [htr] at hline
          simp only [Bool.or_eq_false_iff, beq_eq_false_iff_ne, ne_eq] at hctl
          exact hline (by simp)
            (by simp only [List.head?_cons, ne_eq, Option.some.injEq]
                exact hctl.1)
            (by simp only [List.head?_cons, ne_eq, Option.some.injEq]
                exact hctl.2)
        obtain ⟨hh, z, hz1, hz2⟩ := trimB_head_last line b bs htr
        obtain ⟨k, v, rest', hs⟩ := splitWs_two_tokens b bs hh ⟨z, hz1, hz2⟩ hv
        refine ⟨(k, v) :: ps, ?_⟩
        simp only [collectPairs, htr, hctl, hv, if_true, Bool.false_eq_true,
          if_false, hs, hps, Except.map]

/-- **C6.**  For a frame whose processed lines all pass checksum validation,
`parse_teleinfo` succeeds exactly when all ten required labels occur among
the parsed (label, value) pairs; any `Missing <label>` error names a required
label that is indeed absent.  Unknown extra labels never cause failure by
themselves, since success depends only on the presence of the ten required
ones. -/
theorem missing_label_detection (frame : List Nat)
    (h : ∀ line ∈ linesB frame, (trimB line).isEmpty = false →
          (trimB line).head? ≠ some 2 → (trimB line).head? ≠ some 3 →
          validate_checksum (trimB line) = true) :
    ∃ ps, collectPairs (linesB frame) = .ok ps ∧
      ((∃ r, parse_teleinfo frame = .ok r) ↔
        ∀ lab ∈ requiredLabels, hasKey ps lab = true) ∧
      ∀ lab, parse_teleinfo frame = .error (.missingField lab) →
        lab ∈ requiredLabels ∧ hasKey ps lab = false := by
  obtain ⟨ps, hcp⟩ := collectPairs_ok (linesB frame) h
  have hchar := parse_char frame ps hcp
  have hknone : ∀ k, lookupA (buildMap ps) k = none → hasKey ps k = false := by
    intro k hk
    exact (lastVal_none_iff ps k).mp (by rw [← lookupA_buildMap]; exact hk)
  have hksome : ∀ k v, lookupA (buildMap ps) k = some v → hasKey ps k = true := by
    intro k v hk
    cases hhk : hasKey ps k with
    | true => rfl
    | false =>
      rw [lookupA_buildMap, (lastVal_none_iff ps k).mpr hhk] at hk
      exact Option.noConfusion hk
  have hcases : ((∃ r, parse_teleinfo frame = .ok r) ∧
      ∀ lab ∈ requiredLabels, hasKey ps lab = true) ∨
      (∃ L, parse_teleinfo frame = .error (.missingField L) ∧
        L ∈ requiredLabels ∧ hasKey ps L = false) := by
    cases h1 : lookupA (buildMap ps) lADCO with
    | none =>
      refine Or.inr ⟨lADCO, ?_, by decide, hknone _ h1⟩
      rw [hchar]; simp only [h1]
    | some v1 =>
    cases h2 : lookupA (buildMap ps) lOPTARIF with
    | none =>
      refine Or.inr ⟨lOPTARIF, ?_, by decide, hknone _ h2⟩
      rw [hchar]; simp only [h1, h2]
    | some v2 =>
    cases h3 : lookupA (buildMap ps) lISOUSC with
    | none =>
      refine Or.inr ⟨lISOUSC, ?_, by decide, hknone _ h3⟩
      rw [hchar]; simp only [h1, h2, h3]
    | some v3 =>
    cases h4 : lookupA (buildMap ps) lBASE with
    | none =>
      refine Or.inr ⟨lBASE, ?_, by decide, hknone _ h4⟩
      rw [hchar]; simp only [h1, h2, h3, h4]
    | some v4 =>
    cases h5 : lookupA (buildMap ps) lPTEC with
    | none =>
      refine Or.inr ⟨lPTEC, ?_, by decide, hknone _ h5⟩
      rw [hchar]; simp only [h1, h2, h3, h4, h5]
    | some v5 =>
    cases h6 : lookupA (buildMap ps) lIINST with
    | none =>
      refine Or.inr ⟨lIINST, ?_, by decide, hknone _ h6⟩
      rw [hchar]; simp only [h1, h2, h3, h4, h5, h6]
    | some v6 =>
    cases h7 : lookupA (buildMap ps) lIMAX with
    | none =>
      refine Or.inr ⟨lIMAX, ?_, by decide, hknone _ h7⟩
      rw [hchar]; simp only [h1, h2, h3, h4, h5, h6, h7]
    | some v7 =>
    cases h8 : lookupA (buildMap ps) lPAPP with
    | none =>
      refine Or.inr ⟨lPAPP, ?_, by decide, hknone _ h8⟩
      rw [hchar]; simp only [h1, h2, h3, h4, h5, h6, h7, h8]
    | some v8 =>
    cases h9 : lookupA (buildMap ps) lHHPHC with
    | none =>
      refine Or.inr ⟨lHHPHC, ?_, by decide, hknone _ h9⟩
      rw [hchar]; simp only [h1, h2, h3, h4, h5, h6, h7, h8, h9]
    | some v9 =>
    cases h10 : lookupA (buildMap ps) lMOTDETAT with
    | none =>
      refine Or.inr ⟨lMOTDETAT, ?_, by decide, hknone _ h10⟩
      rw [hchar]; simp only [h1, h2, h3, h4, h5, h6, h7, h8, h9, h10]
    | some v10 =>
      refine Or.inl ⟨⟨⟨v1, v2, v3, v4, v5, v6, v7, v8, v9, v10⟩, ?_⟩, ?_⟩
      · rw [hchar]; simp only [h1, h2, h3, h4, h5, h6, h7, h8, h9, h10]
      · intro lab hlab
        simp only [requiredLabels, List.mem_cons, List.not_mem_nil,
          or_false] at hlab
        rcases hlab with rfl | rfl | rfl | rfl | rfl | rfl | rfl | rfl | rfl | rfl
        exacts [hksome _ _ h1, hksome _ _ h2, hksome _ _ h3, hksome _ _ h4,
          hksome _ _ h5, hksome _ _ h6, hksome _ _ h7, hksome _ _ h8,
          hksome _ _ h9, hksome _ _ h10]
  refine ⟨ps, hcp, ⟨?_, ?_⟩, ?_⟩
  · rintro ⟨r, hr⟩
    rcases hcases with ⟨-, hall⟩ | ⟨L, hL, -, -⟩
    · exact hall
    · rw [hr] at hL; exact Except.noConfusion hL
  · intro hall
    rcases hcases with ⟨hex, -⟩ | ⟨L, -, hLmem, hLfalse⟩
    · exact hex
    · rw [hall L hLmem] at hLfalse; exact Bool.noConfusion hLfalse
  · intro lab hlab
    rcases hcases with ⟨⟨r, hr⟩, -⟩ | ⟨L, hL, hLmem, hLfalse⟩
    · rw [hr] at hlab; exact Except.noConfusion hlab
    · rw [hL] at hlab
      have hLl : L = lab := by
        injection hlab with h'
        injection h'
      subst hLl
      exact ⟨hLmem, hLfalse⟩

/-- **C6, witness.**  The theorem applied to the spec's P3 frame (the sample
frame without its MOTDETAT line): all its lines are checksum-valid, the parse
fails, and the map indeed lacks `MOTDETAT`. -/
theorem missing_label_detection_witness :
    ∃ ps, collectPairs (linesB missingMotdetatFrame) = .ok ps ∧
      ((∃ r, parse_teleinfo missingMotdetatFrame = .ok r) ↔
        ∀ lab ∈ requiredLabels, hasKey ps lab = true) ∧
      ∀ lab, parse_teleinfo missingMotdetatFrame = .error (.missingField lab) →
        lab ∈ requiredLabels ∧ hasKey ps lab = false :=
  missing_label_detection missingMotdetatFrame (by decide)

/-! ## The canonical sample frame and the JSON contract -/

/-- **C7.**  Decoding the canonical ten-line sample frame succeeds and yields
exactly one reading with the expected ten field strings, each preserving its
original formatting. -/
theorem sample_frame_decodes :
    parse_teleinfo sampleFrame = .ok sampleReading ∧
    sampleReading.adco = toBytes ("012345678901") ∧
    sampleReading.optarif = toBytes ("BASE") ∧
    sampleReading.isousc = toBytes ("30") ∧
    sampleReading.base = toBytes ("002809718") ∧
    sampleReading.ptec = toBytes ("TH..") ∧
    sampleReading.iinst = toBytes ("002") ∧
    sampleReading.imax = toBytes ("090") ∧
    sampleReading.papp = toBytes ("00390") ∧
    sampleReading.hhphc = toBytes ("A") ∧
    sampleReading.motdetat = toBytes ("000000") := by decide

/-- **C8.**  The reading obtained from the canonical sample frame serializes
to a JSON text containing exactly the PTEC member
`"PTEC": {"raw": "TH..", "value": "TH"}` and exactly the ADCO member
`"ADCO": {"raw": "012345678901", "value": 12345678901}` — the ADCO value
numeric, with no leading zero. -/
theorem sample_json_entries :
    parse_teleinfo sampleFrame = .ok sampleReading ∧
    (display sampleReading).isSome = true ∧
    containsSeg
      (toBytes ("\x22PTEC\x22: \x7b\x22raw\x22: \x22TH..\x22, \x22value\x22: \x22TH\x22\x7d"))
      ((display sampleReading).getD []) = true ∧
    containsSeg
      (toBytes ("\x22ADCO\x22: \x7b\x22raw\x22: \x22012345678901\x22, \x22value\x22: 12345678901\x7d"))
      ((display sampleReading).getD []) = true := by decide

/-- **C10.**  Serializing a reading whose `ptec` holds fewer than two bytes
always panics — the Rust byte-range slice `&self.ptec[0..2]`, `none` in this
model — rather than returning an error; and `parse_teleinfo` does happily
construct such a reading, e.g. from the checksum-valid line `PTEC T @` of
`shortPtecFrame`, whose `ptec` is the single byte `T`. -/
theorem short_ptec_display_panics :
    (∀ r : TeleinfoFrame, r.ptec.length < 2 → display r = none) ∧
    parse_teleinfo shortPtecFrame = .ok shortPtecReading ∧
    shortPtecReading.ptec.length = 1 := by
  refine ⟨?_, by decide, by decide⟩
  intro r hlen
  have hnot : ¬ 2 ≤ r.ptec.length := by omega
  unfold display
  cases parseI64 r.adco with
  | none => rfl
  | some a =>
    cases parseI32 r.isousc with
    | none => rfl
    | some s =>
      cases parseI64 r.base with
      | none => rfl
      | some b =>
        simp only [if_neg hnot]
        rfl

/-- **C10, witness.**  The reading decoded from `shortPtecFrame` cannot be
serialized: its one-byte `ptec` makes `display` panic. -/
theorem short_ptec_display_panics_witness :
    display shortPtecReading = none :=
  short_ptec_display_panics.1 shortPtecReading (by decide)

/-- **C1, counterexample.**  The serialization of the sample reading is
defined, yet nowhere contains the text `MOTDETAT`: the produced JSON object
is not keyed by all ten field names — the `MOTDETAT` member is absent. -/
theorem display_lacks_motdetat :
    (display sampleReading).isSome = true ∧
    containsSeg (toBytes ("MOTDETAT")) ((display sampleReading).getD [])
      = false := by decide

/- Decompositions of the `Display` format-string chunks into the spec-side
JSON building blocks. -/

theorem dOpenADCO_eq : dOpenADCO = [123, 10, 34] ++ lADCO ++ specKeyOpen := by decide
theorem dNumMid_eq : dNumMid = specNumMid := by decide
theorem dStrMid_eq : dStrMid = specStrMid := by decide
theorem dNumOPTARIF_eq : dNumOPTARIF = [125, 44, 10, 34] ++ lOPTARIF ++ specKeyOpen := by decide
theorem dStrISOUSC_eq : dStrISOUSC = [34, 125, 44, 10, 34] ++ lISOUSC ++ specKeyOpen := by decide
theorem dNumBASE_eq : dNumBASE = [125, 44, 10, 34] ++ lBASE ++ specKeyOpen := by decide
theorem dNumPTEC_eq : dNumPTEC = [125, 44, 10, 34] ++ lPTEC ++ specKeyOpen := by decide
theorem dStrIINST_eq : dStrIINST = [34, 125, 44, 10, 34] ++ lIINST ++ specKeyOpen := by decide
theorem dNumIMAX_eq : dNumIMAX = [125, 44, 10, 34] ++ lIMAX ++ specKeyOpen := by decide
theorem dNumPAPP_eq : dNumPAPP = [125, 44, 10, 34] ++ lPAPP ++ specKeyOpen := by decide
theorem dNumHHPHC_eq : dNumHHPHC = [125, 44, 10, 34] ++ lHHPHC ++ specKeyOpen := by decide
theorem dClose_eq : dClose = specStrClose ++ [10, 125] := by decide
theorem specStrClose_eq : specStrClose = [34, 125] := by decide

/-- **C1 (amended).**  Whenever serialization succeeds — all six numeric
fields parse and `ptec` has at least two bytes — the output is exactly a JSON
object keyed by the *nine* uppercase names ADCO, OPTARIF, ISOUSC, BASE, PTEC,
IINST, IMAX, PAPP, HHPHC (MOTDETAT is not serialized), each mapped to
`{"raw": <original string>, "value": <typed value>}`: the parsed integer for
adco, isousc, base, iinst, imax, papp; the raw string for optarif and hhphc;
and the first two characters of the raw string for ptec. -/
theorem display_nine_member_json (r : TeleinfoFrame) (a s b ii im pa : Int)
    (ha : parseI64 r.adco = some a) (hs : parseI32 r.isousc = some s)
    (hb : parseI64 r.base = some b) (hii : parseI32 r.iinst = some ii)
    (him : parseI32 r.imax = some im) (hpa : parseI32 r.papp = some pa)
    (hp : 2 ≤ r.ptec.length) :
    display r = some (specJsonObject
      [specNumEntry lADCO r.adco a,
       specStrEntry lOPTARIF r.optarif r.optarif,
       specNumEntry lISOUSC r.isousc s,
       specNumEntry lBASE r.base b,
       specStrEntry lPTEC r.ptec (r.ptec.take 2),
       specNumEntry lIINST r.iinst ii,
       specNumEntry lIMAX r.imax im,
       specNumEntry lPAPP r.papp pa,
       specStrEntry lHHPHC r.hhphc r.hhphc]) := by
  unfold display
  simp only [ha, hs, hb, hii, him, hpa, hp, if_true, obind_some]
  simp only [obind_some, Option.some.injEq, specJsonObject, sepJoin, specNumEntry, specStrEntry,
    dOpenADCO_eq, dNumMid_eq, dStrMid_eq, dNumOPTARIF_eq, dStrISOUSC_eq,
    dNumBASE_eq, dNumPTEC_eq, dStrIINST_eq, dNumIMAX_eq, dNumPAPP_eq,
    dNumHHPHC_eq, dClose_eq, specStrClose_eq,
    List.append_assoc, List.cons_append, List.nil_append]

/-- **C1 (amended), witness.**  The nine-member JSON shape at the sample
reading, with its concrete parsed integer values. -/
theorem display_nine_member_json_witness :
    display sampleReading = some (specJsonObject
      [specNumEntry lADCO sampleReading.adco 12345678901,
       specStrEntry lOPTARIF sampleReading.optarif sampleReading.optarif,
       specNumEntry lISOUSC sampleReading.isousc 30,
       specNumEntry lBASE sampleReading.base 2809718,
       specStrEntry lPTEC sampleReading.ptec (sampleReading.ptec.take 2),
       specNumEntry lIINST sampleReading.iinst 2,
       specNumEntry lIMAX sampleReading.imax 90,
       specNumEntry lPAPP sampleReading.papp 390,
       specStrEntry lHHPHC sampleReading.hhphc sampleReading.hhphc]) :=
  display_nine_member_json sampleReading 12345678901 30 2809718 2 90 390
    (by decide) (by decide) (by decide) (by decide) (by decide) (by decide)
    (by decide)

/-! ## The frame assembler's ADCO scan -/

/-- Spec-side: the number of positions, counting from `i`, at which the scan
over the remaining characters matches — the current character is `A` and the
four characters of `tail` starting at the current index read `ADCO`. -/
def countA (tail : List Nat) : List Nat → Nat → Nat
  | [], _ => 0
  | c :: cs, i =>
    (if c = 65 ∧ (tail.drop i).take 4 = adcoRun then 1 else 0)
      + countA tail cs (i + 1)

theorem scanGo_stable (D : List (List Nat)) (hD : D.length = 4) :
    ∀ (rest : List Nat) (i : Nat) (em : List (List Nat)),
      scanGo rest i D em =
        (em ++ List.replicate (countA D.flatten rest i) [], D) := by
  intro rest
  induction rest with
  | nil => intro i em; simp [scanGo, countA]
  | cons c cs ih =>
    intro i em
    simp only [scanGo, countA, hD, Nat.sub_self, List.drop_zero, List.take_zero,
      List.flatten_nil]
    by_cases hc : c = 65
    · have hc' : (c == 65) = true := by simp [hc]
      rw [hc']
      simp only [if_true]
      by_cases hm : (D.flatten.drop i).take 4 = adcoRun
      · rw [if_pos hm, ih (i + 1) (em ++ [[]]), if_pos ⟨hc, hm⟩]
        rw [Nat.add_comm 1 (countA D.flatten cs (i + 1)), List.replicate_succ]
        simp [List.append_assoc]
      · rw [if_neg hm, ih (i + 1) em, if_neg (fun hand => hm hand.2)]
        simp
    · have hc' : (c == 65) = false := by simp [hc]
      rw [hc']
      simp only [Bool.false_eq_true, if_false]
      rw [ih (i + 1) em, if_neg (fun hand => hc hand.1)]
      simp

theorem scanGo_spec (buf : List (List Nat)) (hb : 4 ≤ buf.length) :
    ∀ (rest : List Nat) (i : Nat) (em : List (List Nat)),
      scanGo rest i buf em =
        if countA ((buf.drop (buf.length - 4)).flatten) rest i = 0 then (em, buf)
        else (em ++ ((buf.take (buf.length - 4)).flatten ::
            List.replicate
              (countA ((buf.drop (buf.length - 4)).flatten) rest i - 1) []),
          buf.drop (buf.length - 4)) := by
  intro rest
  induction rest with
  | nil => intro i em; simp [scanGo, countA]
  | cons c cs ih =>
    intro i em
    have hcnt : countA ((buf.drop (buf.length - 4)).flatten) (c :: cs) i =
        (if c = 65 ∧
            (((buf.drop (buf.length - 4)).flatten).drop i).take 4 = adcoRun
          then 1 else 0)
          + countA ((buf.drop (buf.length - 4)).flatten) cs (i + 1) := rfl
    by_cases hc : c = 65
    · have hc' : (c == 65) = true := by simp [hc]
      by_cases hm : (((buf.drop (buf.length - 4)).flatten).drop i).take 4 = adcoRun
      · have hD : (buf.drop (buf.length - 4)).length = 4 := by
          rw [List.length_drop]; omega
        have hstep : scanGo (c :: cs) i buf em =
            scanGo cs (i + 1) (buf.drop (buf.length - 4))
              (em ++ [(buf.take (buf.length - 4)).flatten]) := by
          simp only [scanGo, hc', if_true, if_pos hm]
        have hone : (if c = 65 ∧
            (((buf.drop (buf.length - 4)).flatten).drop i).take 4 = adcoRun
            then 1 else 0) = 1 := if_pos ⟨hc, hm⟩
        rw [hstep, scanGo_stable (buf.drop (buf.length - 4)) hD cs (i + 1) _]
        rw [hcnt, hone]
        rw [if_neg (by omega :
          ¬ 1 + countA ((buf.drop (buf.length - 4)).flatten) cs (i + 1) = 0)]
        rw [Nat.add_comm 1 (countA ((buf.drop (buf.length - 4)).flatten) cs (i + 1)),
          Nat.add_sub_cancel]
        simp [List.append_assoc]
      · have hzero : (if c = 65 ∧
            (((buf.drop (buf.length - 4)).flatten).drop i).take 4 = adcoRun
            then 1 else 0) = 0 := if_neg (fun hand => hm hand.2)
        have hstep : scanGo (c :: cs) i buf em = scanGo cs (i + 1) buf em := by
          simp only [scanGo, hc', if_true, if_neg hm]
        rw [hstep, ih (i + 1) em, hcnt, hzero]
        simp
    · have hc' : (c == 65) = false := by simp [hc]
      have hzero : (if c = 65 ∧
          (((buf.drop (buf.length - 4)).flatten).drop i).take 4 = adcoRun
          then 1 else 0) = 0 := if_neg (fun hand => hc hand.1)
      have hstep : scanGo (c :: cs) i buf em = scanGo cs (i + 1) buf em := by
        simp only [scanGo, hc', Bool.false_eq_true, if_false]
      rw [hstep, ih (i + 1) em, hcnt, hzero]
      simp

/-- **C4 (amended).**  The frame assembler gives the control bytes 0x02/0x03
no role at all.  On each chunk: an invalid-UTF-8 chunk is dropped outright;
with fewer than four chunks buffered the chunk is simply appended; with at
least four chunks buffered the assembler scans the concatenation `T` of the
last four chunks for occurrences of `ADCO`, and if there are `k > 0` of them
it emits the concatenation of all earlier chunks as one frame (plus `k - 1`
empty frames for repeated matches) and retains only the last four chunks,
then appends the new chunk. -/
theorem adco_framing (buf : List (List Nat)) (chunk : List Nat) :
    (utf8Valid chunk = false → processChunk buf chunk = ([], buf)) ∧
    (utf8Valid chunk = true → buf.length < 4 →
      processChunk buf chunk = ([], buf ++ [chunk])) ∧
    (utf8Valid chunk = true → 4 ≤ buf.length →
      processChunk buf chunk =
        if countA ((buf.drop (buf.length - 4)).flatten)
            ((buf.drop (buf.length - 4)).flatten) 0 = 0
        then ([], buf ++ [chunk])
        else ((buf.take (buf.length - 4)).flatten ::
            List.replicate
              (countA ((buf.drop (buf.length - 4)).flatten)
                ((buf.drop (buf.length - 4)).flatten) 0 - 1) [],
          buf.drop (buf.length - 4) ++ [chunk])) := by
  refine ⟨?_, ?_, ?_⟩
  · intro hv
    simp [processChunk, hv]
  · intro hv hlen
    simp [processChunk, hv, Nat.not_le.mpr hlen]
  · intro hv hlen
    simp only [processChunk, hv, if_true, if_pos hlen]
    rw [scanGo_spec buf hlen]
    by_cases hk : countA ((buf.drop (buf.length - 4)).flatten)
        ((buf.drop (buf.length - 4)).flatten) 0 = 0
    · rw [if_pos hk, if_pos hk]
    · rw [if_neg hk, if_neg hk]
      simp

/-- **C4 (amended), witness.**  With the five chunks `0x02, A, D, C, O`
buffered, the arriving chunk (a space) triggers the scan: the last four
chunks read `ADCO`, so the assembler emits the single earlier chunk `0x02`
as a frame and keeps `A, D, C, O` plus the new chunk. -/
theorem adco_framing_witness :
    processChunk [[2], [65], [68], [67], [79]] [32] =
      ([[2]], [[65], [68], [67], [79], [32]]) := by
  have h := (adco_framing [[2], [65], [68], [67], [79]] [32]).2.2
    (by decide) (by decide)
  rw [h]
  decide

/-- **C4, counterexample.**  The assembler does not implement 0x02/0x03
framing: the single chunk `0x02 X 0x03` yields no frame at all (the claim
demands the frame `X`), and delivering `0x02 ADCO␣ 0x03` byte-per-byte
yields the frame `0x02` while the same bytes in one chunk yield nothing, so
byte-at-a-time and single-chunk delivery disagree. -/
theorem stx_etx_framing_refuted :
    ascii_to_frames [[2, 88, 3]] = [] ∧
    ascii_to_frames [[2], [65], [68], [67], [79], [32], [3]] = [[2]] ∧
    ascii_to_frames [[2, 65, 68, 67, 79, 32, 3]] = [] := by decide

end Teleinfo
